import Mathlib

/-
Verification of the CTI AutoLogger extraction pipeline (src/excel.py).

The script scans a mailbox folder newest-first inside a user-supplied date
window, decodes every spreadsheet attachment of each message into tables,
relocates the real header row, classifies columns against a keyword catalog,
accumulates matched cell values per message, renders one consolidated record
per message that collected data, and appends the new records to a persisted
master sheet.

Modelling conventions:
- Python strings are modelled as Lean `String`s, with every operation the
  script uses (lower, strip, substring test, lexicographic comparison,
  split, digit parsing) implemented structurally over the code-point list
  `String.data`, mirroring CPython's code-point semantics.  Case mapping and
  whitespace are modelled over the ASCII range the repository's data uses.
- Spreadsheet cells are `Option String`: `none` models a pandas `NaN`
  (dropped by `dropna`, rendered as the string "nan" by `str(...)`), and
  `some s` models any other value after `str(...)` coercion.
- External effects are made explicit: attachment staging/decoding failure
  points are `Option`-valued, timestamps are microseconds since an epoch
  (CPython `datetime` resolution; `datetime.time.max` is the last
  microsecond of a day), the interactive prompt consumes a list of input
  strings, and the master-file step returns the file-system operations it
  performs as an explicit trace.  A record's `Date` cell is abstracted to
  the day number of its timestamp.
- pandas column selection `df[name]` is modelled as the first column whose
  (normalized) name equals `name`.
-/

namespace CTI

/-! ### String primitives (models of the CPython operations used by the script) -/

/-- Model of `str.lower` on one character (ASCII range). -/
def lowerChar (c : Char) : Char :=
  if 65 ≤ c.toNat ∧ c.toNat ≤ 90 then Char.ofNat (c.toNat + 32) else c

/-- Whitespace recognized by `str.strip` (ASCII range: space, \t, \n, \r, \v, \f). -/
def isSpaceChar (c : Char) : Bool :=
  c.toNat = 32 ∨ c.toNat = 9 ∨ c.toNat = 10 ∨ c.toNat = 13 ∨ c.toNat = 11 ∨ c.toNat = 12

/-- Model of `str.strip`: drop leading and trailing whitespace. -/
def trimChars (l : List Char) : List Char :=
  ((l.dropWhile isSpaceChar).reverse.dropWhile isSpaceChar).reverse

/-- Model of `str.lower` on a whole string. -/
def lowerStr (s : String) : String := ⟨s.data.map lowerChar⟩

/-- Model of `str(x).lower().strip()`, the normalization applied to header
names and scanned cells (src/excel.py lines 33, 39, 114). -/
def normalize (s : String) : String := ⟨trimChars ((lowerStr s).data)⟩

/-- Bool test that the first char list is a prefix of the second. -/
def isPrefixList : List Char → List Char → Bool
  | [], _ => true
  | _ :: _, [] => false
  | a :: as, b :: bs => a == b && isPrefixList as bs

/-- Bool test that the first char list occurs contiguously inside the second. -/
def isInfixList (n : List Char) : List Char → Bool
  | [] => isPrefixList n []
  | c :: rest => isPrefixList n (c :: rest) || isInfixList n rest

/-- Model of the Python substring test `k in c`. -/
def substrIn (k c : String) : Bool := isInfixList k.data c.data

/-- Code-point lexicographic `≤` on char lists, the order CPython's `sorted`
uses on strings. -/
def lexLe : List Char → List Char → Bool
  | [], _ => true
  | _ :: _, [] => false
  | a :: as, b :: bs =>
    if a.toNat < b.toNat then true
    else if b.toNat < a.toNat then false
    else lexLe as bs

/-- Code-point lexicographic `≤` on strings. -/
def strLe (a b : String) : Bool := lexLe a.data b.data

/-- The ordering relation of CPython's `sorted` on strings, as a `Prop`. -/
def strLeRel (a b : String) : Prop := strLe a b = true

instance : DecidableRel strLeRel :=
  fun a b => inferInstanceAs (Decidable (strLe a b = true))

/-- Model of CPython `sorted` on a list of strings (ascending code-point
lexicographic order). -/
def sortStrs (l : List String) : List String := List.insertionSort strLeRel l

/-- Model of `sorted(list(set(l)))` (src/excel.py line 142): the distinct
collected values in ascending lexicographic order. -/
def sortedDedup (l : List String) : List String := sortStrs l.dedup

/-- Model of `"\n".join l` (src/excel.py line 143). -/
def joinNL : List String → String
  | [] => ""
  | [s] => s
  | s :: rest => s ++ "\n" ++ joinNL rest

/-- Bool test that the second char list is a suffix of the first. -/
def listEndsWith (l suf : List Char) : Bool := isPrefixList suf.reverse l.reverse

/-- Model of `str.endswith`. -/
def strEndsWith (s suf : String) : Bool := listEndsWith s.data suf.data

/-- ASCII decimal digit test. -/
def isDigitChar (c : Char) : Bool := 48 ≤ c.toNat && c.toNat ≤ 57

/-- Value of a nonempty all-digit char list read in base 10. -/
def digitsToNat (l : List Char) : Nat := l.foldl (fun n c => n * 10 + (c.toNat - 48)) 0

/-- Parse a nonempty all-digit char list; `none` otherwise. -/
def parseDigits (l : List Char) : Option Nat :=
  if l ≠ [] ∧ l.all isDigitChar then some (digitsToNat l) else none

/-- Model of `str.split("-")` for the single-character separator used by the
date format (splitting an empty string yields one empty part, as in CPython). -/
def splitOnDash : List Char → List (List Char)
  | [] => [[]]
  | c :: rest =>
    if c = '-' then [] :: splitOnDash rest
    else
      match splitOnDash rest with
      | [] => [[c]]
      | g :: gs => (c :: g) :: gs

/-! ### Keyword catalog (src/excel.py lines 14-19) -/

/-- The `IOC_SEARCH_TERMS` dict: category name, ordered keyword list, in the
source's insertion order. -/
def IOC_SEARCH_TERMS : List (String × List String) :=
  [("md5", ["md-5", "md5"]),
   ("sha1", ["sha-1", "sha1"]),
   ("sha256", ["sha-2", "sha256"]),
   ("ip", ["ip address", "ip_address"])]

/-- Flattened keyword list (src/excel.py line 30), in dict-value order. -/
def all_keywords : List String := (IOC_SEARCH_TERMS.map Prod.snd).flatten

/-- Does some catalog keyword occur inside the (already normalized) name? -/
def kwBearing (s : String) : Bool := all_keywords.any (fun k => substrIn k s)

/-! ### Tables and header-row discovery (src/excel.py lines 28-44) -/

/-- A spreadsheet cell after decoding: `none` is a pandas `NaN` / missing
value, `some s` is any other value coerced to text. -/
abbrev Cell : Type := Option String

/-- Model of `str(val)` on a cell: `NaN` prints as "nan". -/
def strCell : Cell → String
  | none => "nan"
  | some s => s

/-- A decoded table: the decoder-assigned header names and the data rows. -/
structure Table where
  cols : List String
  rows : List (List Cell)
deriving DecidableEq

/-- Normalized cell texts of one data row (src/excel.py line 39). -/
def normRow (r : List Cell) : List String := r.map (fun c => normalize (strCell c))

/-- Does some cell of the row bear a catalog keyword (src/excel.py line 40)? -/
def rowBearing (r : List Cell) : Bool := (normRow r).any kwBearing

/-- Does the decoder-assigned header already bear a catalog keyword
(src/excel.py lines 33-34)? -/
def headerBearing (t : Table) : Bool := (t.cols.map normalize).any kwBearing

/-- Scan rows for the first keyword-bearing one, returning its position and
its normalized cell texts (the loop of src/excel.py lines 38-43). -/
def scanRows : List (List Cell) → Nat → Option (Nat × List String)
  | [], _ => none
  | r :: rest, i =>
    if rowBearing r then some (i, normRow r) else scanRows rest (i + 1)

/-- Model of `find_header_row` (src/excel.py lines 28-44): keep the table if
its header already bears a keyword; otherwise scan the first 10 data rows for
a keyword-bearing row, reslice the table below it using its normalized cells
as the new header; `none` when no row qualifies. -/
def find_header_row (t : Table) : Option Table :=
  if headerBearing t then some t
  else
    match scanRows (t.rows.take 10) 0 with
    | some (i, rv) => some ⟨rv, t.rows.drop (i + 1)⟩
    | none => none

/-! ### Column classification and value collection (src/excel.py lines 106-127) -/

/-- Model of the keyword loop of src/excel.py lines 117-120: try the
category's keywords in order; for each, take the left-most header containing
it; stop at the first keyword that yields a (truthy) header name.  A matched
empty header name is falsy in Python, so the loop keeps searching past it. -/
def classifyCategory (cols : List String) : List String → Option String
  | [] => none
  | kw :: rest =>
    match cols.find? (fun c => substrIn kw c) with
    | some c => if c = "" then classifyCategory cols rest else some c
    | none => classifyCategory cols rest

/-- Model of `df_clean[found_col].dropna().astype(str).tolist()`
(src/excel.py line 123): the non-missing values of the column at `idx`. -/
def colVals (rows : List (List Cell)) (idx : Nat) : List String :=
  rows.filterMap (fun r => (r.get? idx).bind id)

/-- Per-message accumulator: the `email_row` category buckets (an association
list in the dict's key order) and the `email_has_data` flag
(src/excel.py lines 83-85). -/
structure EmailAcc where
  vals : List (String × List String)
  hasData : Bool
deriving DecidableEq

/-- The fresh accumulator for one message (src/excel.py lines 83-85). -/
def emptyAcc : EmailAcc :=
  ⟨[("md5", []), ("sha1", []), ("sha256", []), ("ip", [])], false⟩

/-- Model of `email_row[ioc_type].extend(vals)` (src/excel.py line 125). -/
def extendVals (l : List (String × List String)) (cat : String) (vs : List String) :
    List (String × List String) :=
  l.map (fun p => if p.1 = cat then (p.1, p.2 ++ vs) else p)

/-- Fold of the category loop of src/excel.py lines 116-127 over one
classified table: each category that matched a column with nonempty
non-missing values extends its bucket and raises the had-data flag. -/
def processCats (acc : EmailAcc) (cols : List String) (rows : List (List Cell)) :
    List (String × List String) → EmailAcc
  | [] => acc
  | (ioc, kws) :: rest =>
    let acc' :=
      match classifyCategory cols kws with
      | none => acc
      | some c =>
        let vs := colVals rows (cols.indexOf c)
        if vs.isEmpty then acc else ⟨extendVals acc.vals ioc vs, true⟩
    processCats acc' cols rows rest

/-- Process one decoded sheet (src/excel.py lines 108-127): skip empty
tables, relocate the header, normalize the header names, then collect column
values per catalog category. -/
def processSheet (acc : EmailAcc) (t : Table) : EmailAcc :=
  if t.rows.isEmpty || t.cols.isEmpty then acc
  else
    match find_header_row t with
    | none => acc
    | some t' => processCats acc (t'.cols.map normalize) t'.rows IOC_SEARCH_TERMS

/-- Process the sheets of one attachment (the loop of src/excel.py lines
107-127).  A sheet that fails to decode (`none`) raises inside the
per-attachment `try`, so the remaining sheets of the same attachment are
abandoned; values already accumulated are kept. -/
def processSheets (acc : EmailAcc) : List (Option Table) → EmailAcc
  | [] => acc
  | none :: _ => acc
  | some t :: rest => processSheets (processSheet acc t) rest

/-- Modelled from the spec: the per-sheet recovery the spec describes for
`DecodeFailure` ("that sheet is skipped"), in which a failing sheet is
skipped individually and the remaining sheets of the same attachment are
still decoded.  Stated only to compare with `processSheets` above. -/
def processSheetsSpec (acc : EmailAcc) : List (Option Table) → EmailAcc
  | [] => acc
  | none :: rest => processSheetsSpec acc rest
  | some t :: rest => processSheetsSpec (processSheet acc t) rest

/-- One attachment of a message: its file name, and `none` for an attachment
that fails to stage or open (`SaveAsFile` / `ExcelFile` raising, caught at
src/excel.py line 135), or the list of its sheets, each `none` if that
sheet's decode raises. -/
structure Attachment where
  fname : String
  content : Option (List (Option Table))
deriving DecidableEq

/-- Model of `fname.lower().endswith(('.xlsx', '.xls'))` (src/excel.py
lines 93-95). -/
def isSpreadsheetName (s : String) : Bool :=
  strEndsWith (lowerStr s) ".xlsx" || strEndsWith (lowerStr s) ".xls"

/-- Process one attachment (src/excel.py lines 90-136): non-spreadsheet
names are skipped, a staging/open failure is caught and skipped, otherwise
the sheets are processed in order. -/
def processAttachment (acc : EmailAcc) (a : Attachment) : EmailAcc :=
  if !isSpreadsheetName a.fname then acc
  else
    match a.content with
    | none => acc
    | some sheets => processSheets acc sheets

/-- Process all attachments of one message in order (src/excel.py line 90). -/
def processAtts (acc : EmailAcc) : List Attachment → EmailAcc
  | [] => acc
  | a :: rest => processAtts (processAttachment acc a) rest

/-- All values collected for the message, across every category bucket. -/
def collectedVals (acc : EmailAcc) : List String := (acc.vals.map Prod.snd).flatten

/-! ### Record finalization (src/excel.py lines 138-145) -/

/-- Model of `"\n".join(sorted(list(set(vals))))` (src/excel.py lines
142-143): the rendered blob for one category. -/
def finalizeVals (vs : List String) : String := joinNL (sortedDedup vs)

/-- One finalized output row (`final_row`, src/excel.py lines 139-145).
The `Date` cell is abstracted to the day number of the message timestamp. -/
structure Record where
  subject : String
  date : Nat
  md5 : String
  sha1 : String
  sha256 : String
  ip : String
deriving DecidableEq

/-- Bucket lookup in the accumulator (dict access `email_row[key]`). -/
def bucket (acc : EmailAcc) (cat : String) : List String :=
  match acc.vals.find? (fun p => p.1 = cat) with
  | some p => p.2
  | none => []

/-- One message of the folder: its MAPI class, its received time in
microseconds since the epoch (`none` when reading `ReceivedTime` raises,
src/excel.py lines 73-75), its subject and its attachments. -/
structure Msg where
  msgClass : Nat
  receivedTime : Option Nat
  subject : String
  attachments : List Attachment
deriving DecidableEq

/-- Build the message's record (src/excel.py lines 83-145): accumulate over
all attachments, and emit a finalized row exactly when the had-data flag was
raised. -/
def buildRecord (m : Msg) (day : Nat) : Option Record :=
  let acc := processAtts emptyAcc m.attachments
  if acc.hasData then
    some ⟨m.subject, day,
          finalizeVals (bucket acc "md5"), finalizeVals (bucket acc "sha1"),
          finalizeVals (bucket acc "sha256"), finalizeVals (bucket acc "ip")⟩
  else none

/-! ### The message scan (src/excel.py lines 60-145) -/

/-- Microseconds in one day; `datetime.time.max` is the last microsecond. -/
def dayUS : Nat := 86400000000

/-- The message loop (src/excel.py lines 70-145) producing `new_data`:
non-mail items and unreadable timestamps are skipped, a timestamp older than
the window start breaks the whole loop (newest-first ordering), one newer
than the window end is skipped individually, attachment-less messages are
skipped, and each remaining message contributes its record if it has one. -/
def scanLoop (startDt endDt : Nat) : List Msg → List Record
  | [] => []
  | m :: rest =>
    if m.msgClass ≠ 43 then scanLoop startDt endDt rest
    else
      match m.receivedTime with
      | none => scanLoop startDt endDt rest
      | some t =>
        if t < startDt then []
        else if t > endDt then scanLoop startDt endDt rest
        else if m.attachments.isEmpty then scanLoop startDt endDt rest
        else
          match buildRecord m (t / dayUS) with
          | some r => r :: scanLoop startDt endDt rest
          | none => scanLoop startDt endDt rest

/-! ### Date input (src/excel.py lines 21-26, 57-61) -/

/-- A calendar date as entered by the operator. -/
structure Date where
  year : Nat
  month : Nat
  day : Nat
deriving DecidableEq

/-- Gregorian leap-year rule (CPython `calendar.isleap`). -/
def isLeap (y : Nat) : Bool := (y % 4 == 0 && y % 100 != 0) || y % 400 == 0

/-- Days in a month of a given year. -/
def daysInMonth (y m : Nat) : Nat :=
  if m = 2 then (if isLeap y then 29 else 28)
  else if m = 4 ∨ m = 6 ∨ m = 9 ∨ m = 11 then 30
  else 31

/-- Days in the months of `y` strictly before month `m`. -/
def cumDaysBefore (y m : Nat) : Nat :=
  ((List.range (m - 1)).map (fun i => daysInMonth y (i + 1))).foldl (· + ·) 0

/-- Proleptic-Gregorian day number of a date (rata die minus one), used to
order dates and to place `datetime.combine(date, time)` on the μs axis. -/
def dateToDays (d : Date) : Nat :=
  let py := d.year - 1
  365 * py + py / 4 - py / 100 + py / 400 + cumDaysBefore d.year d.month + (d.day - 1)

/-- Model of `datetime.strptime(s, "%Y-%m-%d").date()` (CPython): exactly
three dash-separated all-digit fields, a 4-digit year of at least 1, a
1-2-digit month in 1..12, a 1-2-digit day valid for that month; `none`
models the `ValueError` path. -/
def strptimeYMD (s : String) : Option Date :=
  match splitOnDash s.data with
  | [ys, ms, ds] =>
    match parseDigits ys, parseDigits ms, parseDigits ds with
    | some y, some m, some d =>
      if ys.length = 4 ∧ 1 ≤ y ∧ ms.length ≤ 2 ∧ 1 ≤ m ∧ m ≤ 12 ∧
         ds.length ≤ 2 ∧ 1 ≤ d ∧ d ≤ daysInMonth y m
      then some ⟨y, m, d⟩ else none
    | _, _, _ => none
  | _ => none

/-- Model of `get_valid_date` (src/excel.py lines 21-26) over the stream of
strings the operator types: strip each entry, re-prompt on a malformed one,
return the first valid date and the unconsumed stream.  `none` models an
operator that never supplies a valid date (the loop never returns). -/
def get_valid_date : List String → Option (Date × List String)
  | [] => none
  | s :: rest =>
    match strptimeYMD ⟨trimChars s.data⟩ with
    | some d => some (d, rest)
    | none => get_valid_date rest

/-! ### Master-file persistence (src/excel.py lines 147-184) -/

/-- File-system operations the persistence step performs, as an explicit
trace. -/
inductive FsOp where
  | readMaster
  | writeMaster (rows : List Record)
deriving DecidableEq

/-- The operator-facing outcome printed at the end of the run
(src/excel.py lines 180, 184). -/
inductive Notice where
  | noData
  | saved
deriving DecidableEq

/-- State of the master file: `none` when it does not exist, otherwise its
persisted rows (read back verbatim). -/
structure FsState where
  master : Option (List Record)
deriving DecidableEq

/-- Model of src/excel.py lines 147-184 with the external read/write
succeeding: with no new records the master file is not touched and only the
no-data notice is printed; otherwise the existing rows (if the file exists)
are read and the new records are appended after them. -/
def persistStep (newData : List Record) (fs : FsState) : FsState × List FsOp × Notice :=
  match newData with
  | [] => (fs, [], Notice.noData)
  | _ :: _ =>
    match fs.master with
    | some ex =>
      (⟨some (ex ++ newData)⟩, [FsOp.readMaster, FsOp.writeMaster (ex ++ newData)], Notice.saved)
    | none => (⟨some newData⟩, [FsOp.writeMaster newData], Notice.saved)

/-- The run after the two dates are read (src/excel.py lines 60-184):
`start_dt` is the first microsecond of the start date, `end_dt` the last
microsecond of the end date. -/
def runAfterDates (sd ed : Date) (msgs : List Msg) (fs : FsState) :
    FsState × List FsOp × Notice :=
  persistStep
    (scanLoop (dateToDays sd * dayUS) (dateToDays ed * dayUS + (dayUS - 1)) msgs) fs

/-- The run from the operator's typed input stream onward (src/excel.py
lines 57-184): prompt for the start then the end date, then scan and
persist.  There is no comparison of the two dates in the source. -/
def runFromInputs (inputs : List String) (msgs : List Msg) (fs : FsState) :
    Option (FsState × List FsOp × Notice) :=
  match get_valid_date inputs with
  | none => none
  | some (sd, rest) =>
    match get_valid_date rest with
    | none => none
    | some (ed, _) => some (runAfterDates sd ed msgs fs)

/-! ### Concrete fixtures used by witnesses and counterexamples -/

/-- A sheet whose decoder-assigned header bears the `md5` keyword and which
holds one hash value. -/
def tGood : Table := ⟨["md5"], [[some "deadbeef"]]⟩

/-- A table whose real header sits on data row 1 (below a junk row). -/
def tShifted : Table :=
  ⟨["Unnamed: 0", "Unnamed: 1"],
   [[some "junk", none],
    [some " MD-5 ", some "IP Address"],
    [some "a1", some "9.9.9.9"]]⟩

/-- An attachment whose staging or open fails. -/
def aFail : Attachment := ⟨"bad.xlsx", none⟩

/-- A valid attachment holding `tGood`. -/
def aGood : Attachment := ⟨"good.xlsx", some [some tGood]⟩

/-- A class-43 message dated 2024-05-05 carrying `aGood`. -/
def wMsg : Msg :=
  ⟨43, some (dateToDays ⟨2024, 5, 5⟩ * dayUS + 3600000000), "weekly iocs", [aGood]⟩

/-- An arbitrary persisted master row. -/
def wRecord : Record := ⟨"old subject", 0, "aa", "", "", ""⟩

/-- The invariant tying the had-data flag to the buckets: the bucket keys
are exactly the catalog categories, and the flag is raised exactly when some
bucket is nonempty. -/
def accInv (acc : EmailAcc) : Prop :=
  acc.vals.map Prod.fst = ["md5", "sha1", "sha256", "ip"] ∧
  (acc.hasData = true ↔ collectedVals acc ≠ [])

/-! ## Helper lemmas -/

theorem scanRows_none : ∀ (l : List (List Cell)) (i : Nat),
    (∀ r ∈ l, rowBearing r = false) → scanRows l i = none
  | [], _, _ => rfl
  | r :: rest, i, h => by
    simp only [scanRows, h r (List.mem_cons_self r rest)]
    exact scanRows_none rest (i + 1) (fun r' hr' => h r' (List.mem_cons_of_mem r hr'))

theorem scanRows_first : ∀ (l₁ : List (List Cell)) (r : List Cell) (l₂ : List (List Cell))
    (i : Nat), (∀ r' ∈ l₁, rowBearing r' = false) → rowBearing r = true →
    scanRows (l₁ ++ r :: l₂) i = some (i + l₁.length, normRow r)
  | [], r, l₂, i, _, hr => by simp [scanRows, hr]
  | r' :: l₁, r, l₂, i, h, hr => by
    simp only [List.cons_append, scanRows, h r' (List.mem_cons_self r' l₁),
      Bool.false_eq_true, if_false, List.append_eq]
    rw [scanRows_first l₁ r l₂ (i + 1) (fun x hx => h x (List.mem_cons_of_mem r' hx)) hr]
    simp only [List.length_cons]
    have harith : i + 1 + l₁.length = i + (l₁.length + 1) := by omega
    rw [harith]

end CTI

/-! ## Claims -/

namespace CTI

/-- Claim C1: `find_header_row` keeps a table unchanged when its decoder-assigned
header already bears a catalog keyword; otherwise, when the first
keyword-bearing data row sits at index `k < 10` (rows before it bearing
none), the result's column names are that row's lowercased-trimmed cells and
its data rows are exactly the rows strictly after it; when no row among the
first 10 bears a keyword the result is `none`, and the sheet is then left
out of the accumulation entirely. -/
theorem find_header_row_spec :
    (∀ t : Table, headerBearing t = true → find_header_row t = some t) ∧
    (∀ (t : Table) (l₁ : List (List Cell)) (r : List Cell) (l₂ : List (List Cell)),
       headerBearing t = false → t.rows = l₁ ++ r :: l₂ → l₁.length < 10 →
       (∀ r' ∈ l₁, rowBearing r' = false) → rowBearing r = true →
       find_header_row t = some ⟨normRow r, l₂⟩) ∧
    (∀ t : Table, headerBearing t = false →
       (∀ r ∈ t.rows.take 10, rowBearing r = false) → find_header_row t = none) ∧
    (∀ (t : Table) (acc : EmailAcc), find_header_row t = none → processSheet acc t = acc) := by
  refine ⟨fun t h => by simp [find_header_row, h], ?_, ?_, ?_⟩
  · intro t l₁ r l₂ hhdr hrows hlen h₁ hr
    have htake : t.rows.take 10 = l₁ ++ r :: l₂.take (10 - l₁.length - 1) := by
      rw [hrows, List.take_append_eq_append_take]
      have h10 : l₁.length ≤ 10 := Nat.le_of_lt hlen
      rw [List.take_of_length_le h10]
      obtain ⟨k, hk⟩ : ∃ k, 10 - l₁.length = k + 1 := ⟨10 - l₁.length - 1, by omega⟩
      rw [hk, List.take_succ_cons]
      simp
    have hdrop : t.rows.drop (l₁.length + 1) = l₂ := by
      rw [hrows, show l₁ ++ r :: l₂ = (l₁ ++ [r]) ++ l₂ by simp,
        show l₁.length + 1 = (l₁ ++ [r]).length by simp]
      exact List.drop_left (l₁ ++ [r]) l₂
    simp only [find_header_row, hhdr, Bool.false_eq_true, if_false, htake]
    rw [scanRows_first l₁ r _ 0 h₁ hr]
    simp [hdrop]
  · intro t hhdr hrows
    simp only [find_header_row, hhdr, Bool.false_eq_true, if_false]
    rw [scanRows_none _ 0 hrows]
  · intro t acc h
    unfold processSheet
    split
    · rfl
    · rw [h]

theorem lexLe_total : ∀ a b : List Char, lexLe a b = true ∨ lexLe b a = true
  | [], _ => Or.inl rfl
  | _ :: _, [] => Or.inr rfl
  | a :: as, b :: bs => by
    simp only [lexLe]
    by_cases h1 : a.toNat < b.toNat
    · left; simp [h1]
    · by_cases h2 : b.toNat < a.toNat
      · right; simp [h2]
      · simp only [h1, h2, if_false]
        exact lexLe_total as bs

theorem lexLe_trans : ∀ a b c : List Char,
    lexLe a b = true → lexLe b c = true → lexLe a c = true
  | [], _, _, _, _ => rfl
  | _ :: _, [], _, h, _ => by simp [lexLe] at h
  | _ :: _, _ :: _, [], _, h => by simp [lexLe] at h
  | a :: as, b :: bs, c :: cs, h1, h2 => by
    simp only [lexLe] at h1 h2 ⊢
    by_cases hab : a.toNat < b.toNat
    · by_cases hbc : b.toNat < c.toNat
      · simp [show a.toNat < c.toNat by omega]
      · by_cases hcb : c.toNat < b.toNat
        · rw [if_neg hbc, if_pos hcb] at h2
          exact absurd h2 (by simp)
        · simp [show a.toNat < c.toNat by omega]
    · by_cases hba : b.toNat < a.toNat
      · rw [if_neg hab, if_pos hba] at h1
        exact absurd h1 (by simp)
      · rw [if_neg hab, if_neg hba] at h1
        by_cases hbc : b.toNat < c.toNat
        · simp [show a.toNat < c.toNat by omega]
        · by_cases hcb : c.toNat < b.toNat
          · rw [if_neg hbc, if_pos hcb] at h2
            exact absurd h2 (by simp)
          · rw [if_neg hbc, if_neg hcb] at h2
            rw [if_neg (show ¬ a.toNat < c.toNat by omega),
              if_neg (show ¬ c.toNat < a.toNat by omega)]
            exact lexLe_trans as bs cs h1 h2

instance : IsTotal String strLeRel := ⟨fun a b => lexLe_total a.data b.data⟩

instance : IsTrans String strLeRel := ⟨fun a b c => lexLe_trans a.data b.data c.data⟩

/-- Claim C1 witness: a table whose true header sits on data row 1, below one junk
row. -/
theorem find_header_row_spec_witness :
    headerBearing tShifted = false ∧
    rowBearing [some " MD-5 ", some "IP Address"] = true ∧
    find_header_row tShifted =
      some ⟨["md-5", "ip address"], [[some "a1", some "9.9.9.9"]]⟩ :=
  ⟨by decide, by decide,
   find_header_row_spec.2.1 tShifted [[some "junk", none]]
     [some " MD-5 ", some "IP Address"] [[some "a1", some "9.9.9.9"]]
     (by decide) rfl (by decide) (by decide) (by decide)⟩

/-- Claim C2 counterexample: the rendered blob's distinct entries in CPython's
(code-point) lexicographic order are `["B", "C", "a"]` — uppercase sorts
before lowercase — not `["a", "B", "C"]` as the claim lists them. -/
theorem finalize_blob_cex :
    sortedDedup ["B", "a", "a", "C"] ≠ ["a", "B", "C"] ∧
    finalizeVals ["B", "a", "a", "C"] ≠ "a\nB\nC" ∧
    finalizeVals ["B", "a", "a", "C"] = "B\nC\na" := by decide

/-- Claim C2 (amended): for every category the rendered blob is the collected
values with exact-string duplicates removed, sorted by ordinary
(code-point) lexicographic comparison, joined with the fixed `"\n"`
separator; in particular for collected values `["B", "a", "a", "C"]` the
distinct sorted entries are `B, C, a` (uppercase before lowercase, no
duplicate `"a"`) and the blob is `"B\nC\na"`. -/
theorem finalize_blob_spec :
    (∀ vs : List String,
       (sortedDedup vs).Nodup ∧ List.Sorted strLeRel (sortedDedup vs) ∧
       (∀ s : String, s ∈ sortedDedup vs ↔ s ∈ vs)) ∧
    sortedDedup ["B", "a", "a", "C"] = ["B", "C", "a"] ∧
    finalizeVals ["B", "a", "a", "C"] = "B\nC\na" := by
  refine ⟨fun vs => ⟨?_, ?_, ?_⟩, by decide, by decide⟩
  · exact ((List.perm_insertionSort strLeRel vs.dedup).nodup_iff).mpr (List.nodup_dedup vs)
  · exact List.sorted_insertionSort strLeRel vs.dedup
  · intro s
    show s ∈ List.insertionSort strLeRel vs.dedup ↔ s ∈ vs
    rw [(List.perm_insertionSort strLeRel vs.dedup).mem_iff, List.mem_dedup]

/-- Claim C3: with a persisted master present, merging appends the new records
after the persisted rows, kept verbatim in their prior order, with no
reordering and no deduplication; with no persisted master, the produced
dataset is exactly the new records in processing order. -/
theorem dataset_merge_spec :
    (∀ p1 p2 p3 r1 r2 : Record,
       persistStep [r1, r2] ⟨some [p1, p2, p3]⟩ =
         (⟨some [p1, p2, p3, r1, r2]⟩,
          [FsOp.readMaster, FsOp.writeMaster [p1, p2, p3, r1, r2]], Notice.saved)) ∧
    (∀ (ex : List Record) (r : Record) (rs : List Record),
       (persistStep (r :: rs) ⟨some ex⟩).1.master = some (ex ++ r :: rs)) ∧
    (∀ (r : Record) (rs : List Record),
       (persistStep (r :: rs) ⟨none⟩).1.master = some (r :: rs)) :=
  ⟨fun _ _ _ _ _ => rfl, fun _ _ _ => rfl, fun _ _ => rfl⟩

theorem find_first_after {p : String → Bool} : ∀ (l₁ : List String) (h : String)
    (l₂ : List String), (∀ c ∈ l₁, p c = false) → p h = true →
    (l₁ ++ h :: l₂).find? p = some h
  | [], h, l₂, _, hp => by simp [List.find?_cons_of_pos, hp]
  | c :: l₁, h, l₂, hall, hp => by
    rw [List.cons_append, List.find?_cons_of_neg]
    · exact find_first_after l₁ h l₂ (fun x hx => hall x (List.mem_cons_of_mem c hx)) hp
    · simp [hall c (List.mem_cons_self c l₁)]

theorem find_unique {p : String → Bool} : ∀ (l : List String) (h : String),
    h ∈ l → p h = true → (∀ c ∈ l, c ≠ h → p c = false) → l.find? p = some h
  | [], h, hmem, _, _ => absurd hmem (List.not_mem_nil h)
  | a :: l, h, hmem, hp, huniq => by
    by_cases hah : a = h
    · subst hah
      simp [List.find?_cons_of_pos, hp]
    · rw [List.find?_cons_of_neg _ (by simp [huniq a (List.mem_cons_self a l) hah])]
      exact find_unique l h (by
          rcases List.mem_cons.mp hmem with h1 | h1
          · exact absurd h1.symm hah
          · exact h1) hp
        (fun c hc => huniq c (List.mem_cons_of_mem a hc))

/-- Claim C4: the category's keywords are tried in declared order and the scan
stops at the first keyword matching any header; with keyword list `[a, b]`,
when one header contains `b` but none contains `a`, the header containing
`b` is chosen; the left-most header containing the matched keyword wins;
and a category none of whose keywords occurs in any header classifies to
nothing (skipped, not an error). -/
theorem classify_spec :
    (∀ (cols : List String) (a b h : String),
       h ∈ cols → substrIn b h = true → h ≠ "" →
       (∀ c ∈ cols, substrIn a c = false) →
       (∀ c ∈ cols, c ≠ h → substrIn b c = false) →
       classifyCategory cols [a, b] = some h) ∧
    (∀ (a : String) (kws : List String) (l₁ l₂ : List String) (h : String),
       substrIn a h = true → h ≠ "" → (∀ c ∈ l₁, substrIn a c = false) →
       classifyCategory (l₁ ++ h :: l₂) (a :: kws) = some h) ∧
    (∀ (cols kws : List String),
       (∀ kw ∈ kws, ∀ c ∈ cols, substrIn kw c = false) →
       classifyCategory cols kws = none) := by
  refine ⟨?_, ?_, ?_⟩
  · intro cols a b h hmem hb hne ha huniq
    have hfa : cols.find? (fun c => substrIn a c) = none :=
      List.find?_eq_none.mpr (fun x hx => by simp [ha x hx])
    have hfb : cols.find? (fun c => substrIn b c) = some h :=
      find_unique cols h hmem hb huniq
    simp [classifyCategory, hfa, hfb, hne]
  · intro a kws l₁ l₂ h hsub hne hall
    have hf : (l₁ ++ h :: l₂).find? (fun c => substrIn a c) = some h :=
      find_first_after l₁ h l₂ (fun c hc => hall c hc) hsub
    simp [classifyCategory, hf, hne]
  · intro cols kws hnone
    induction kws with
    | nil => rfl
    | cons kw rest ih =>
      have hf : cols.find? (fun c => substrIn kw c) = none :=
        List.find?_eq_none.mpr
          (fun x hx => by simp [hnone kw (List.mem_cons_self kw rest) x hx])
      simp only [classifyCategory, hf]
      exact ih (fun k hk => hnone k (List.mem_cons_of_mem kw hk))

/-- Claim C4 witness: with the `sha1` keyword list `["sha-1", "sha1"]`, the header
list `["other", "sha1 values"]` classifies to the header containing the
second keyword. -/
theorem classify_spec_witness :
    substrIn "sha1" "sha1 values" = true ∧
    classifyCategory ["other", "sha1 values"] ["sha-1", "sha1"] = some "sha1 values" :=
  ⟨by decide,
   classify_spec.1 ["other", "sha1 values"] "sha-1" "sha1" "sha1 values"
     (by decide) (by decide) (by decide) (by decide) (by decide)⟩

theorem scanLoop_break (s e : Nat) (m : Msg) (t : Nat)
    (hc : m.msgClass = 43) (ht : m.receivedTime = some t) (hlt : t < s) :
    ∀ l₁ l₂ l₂' : List Msg,
      scanLoop s e (l₁ ++ m :: l₂) = scanLoop s e (l₁ ++ m :: l₂')
  | [], l₂, l₂' => by simp [scanLoop, hc, ht, hlt]
  | a :: l₁, l₂, l₂' => by
    have ih := scanLoop_break s e m t hc ht hlt l₁ l₂ l₂'
    simp only [List.cons_append, scanLoop, List.append_eq]
    rw [ih]

/-- Claim C5: in the message scan, a class-43 message older than the window start
breaks the loop, so nothing strictly after it in the sequence can influence
the result; a message newer than the window end is skipped individually and
the scan continues; and since the window runs from the first microsecond of
the start date to the last microsecond of the end date, a message at any
time of a day between the two dates (in particular on the start or the end
date itself) is neither broken on nor skipped. -/
theorem scan_early_exit_spec :
    (∀ (s e : Nat) (l₁ l₂ l₂' : List Msg) (m : Msg) (t : Nat),
       m.msgClass = 43 → m.receivedTime = some t → t < s →
       scanLoop s e (l₁ ++ m :: l₂) = scanLoop s e (l₁ ++ m :: l₂')) ∧
    (∀ (s e : Nat) (m : Msg) (rest : List Msg) (t : Nat),
       m.msgClass = 43 → m.receivedTime = some t → s ≤ e → e < t →
       scanLoop s e (m :: rest) = scanLoop s e rest) ∧
    (∀ sd ed t : Nat, sd ≤ t / dayUS → t / dayUS ≤ ed →
       ¬ t < sd * dayUS ∧ ¬ t > ed * dayUS + (dayUS - 1)) := by
  refine ⟨?_, ?_, ?_⟩
  · intro s e l₁ l₂ l₂' m t hc ht hlt
    exact scanLoop_break s e m t hc ht hlt l₁ l₂ l₂'
  · intro s e m rest t hc ht hse hgt
    have hns : ¬ t < s := by omega
    simp [scanLoop, hc, ht, hns, hgt]
  · intro sd ed t h1 h2
    simp only [dayUS] at *
    omega

/-- Claim C5 witness: a too-old message at the head of the sequence makes the
scan independent of everything behind it. -/
theorem scan_early_exit_spec_witness :
    (⟨43, some 5, "old", []⟩ : Msg).receivedTime = some 5 ∧ (5 : Nat) < 10 ∧
    scanLoop 10 20 [⟨43, some 5, "old", []⟩, wMsg] =
      scanLoop 10 20 [(⟨43, some 5, "old", []⟩ : Msg)] :=
  ⟨rfl, by decide,
   scan_early_exit_spec.1 10 20 [] [wMsg] [] ⟨43, some 5, "old", []⟩ 5 rfl rfl (by decide)⟩

theorem processAttachment_failed (acc : EmailAcc) (f : Attachment)
    (hf : f.content = none) : processAttachment acc f = acc := by
  unfold processAttachment
  rw [hf]
  split <;> rfl

theorem processAtts_skip_failed (f : Attachment) (hf : f.content = none) :
    ∀ (acc : EmailAcc) (l₁ l₂ : List Attachment),
      processAtts acc (l₁ ++ f :: l₂) = processAtts acc (l₁ ++ l₂)
  | acc, [], l₂ => by
    simp only [List.nil_append, processAtts]
    rw [processAttachment_failed acc f hf]
  | acc, a :: l₁, l₂ => by
    simp only [List.cons_append, processAtts]
    exact processAtts_skip_failed f hf _ l₁ l₂

/-- Claim C6: an attachment that fails to stage or decode is skipped, the other
attachments of the message are still processed against the same
accumulator, and the message's final record is exactly what it would be
without the failing attachment — so a valid attachment's matched values
still appear in it, and the failure never aborts the rest of the run. -/
theorem attachment_failure_isolated :
    (∀ (acc : EmailAcc) (l₁ l₂ : List Attachment) (f : Attachment),
       f.content = none →
       processAtts acc (l₁ ++ f :: l₂) = processAtts acc (l₁ ++ l₂)) ∧
    (∀ (m : Msg) (l₁ l₂ : List Attachment) (f : Attachment) (day : Nat),
       m.attachments = l₁ ++ f :: l₂ → f.content = none →
       buildRecord m day = buildRecord ⟨m.msgClass, m.receivedTime, m.subject, l₁ ++ l₂⟩ day) := by
  constructor
  · intro acc l₁ l₂ f hf
    exact processAtts_skip_failed f hf acc l₁ l₂
  · intro m l₁ l₂ f day hm hf
    simp only [buildRecord, hm]
    rw [processAtts_skip_failed f hf emptyAcc l₁ l₂]

/-- Claim C6 witness: a failing attachment followed by a valid one; the valid
attachment's hash value is still collected. -/
theorem attachment_failure_isolated_witness :
    aFail.content = none ∧
    processAtts emptyAcc [aFail, aGood] = processAtts emptyAcc [aGood] ∧
    (processAtts emptyAcc [aFail, aGood]).vals =
      [("md5", ["deadbeef"]), ("sha1", []), ("sha256", []), ("ip", [])] :=
  ⟨rfl, attachment_failure_isolated.1 emptyAcc [] [aGood] aFail rfl, by decide⟩

/-- Claim C7 counterexample: an attachment whose first sheet fails to decode and
whose second sheet is valid.  The per-attachment handler catches the
failure, so the second sheet is never decoded and contributes nothing,
while the per-sheet recovery the claim describes would have collected its
hash value. -/
theorem sheet_failure_not_isolated :
    processSheets emptyAcc [none, some tGood] = emptyAcc ∧
    processSheetsSpec emptyAcc [none, some tGood] ≠ processSheets emptyAcc [none, some tGood] ∧
    (processSheetsSpec emptyAcc [none, some tGood]).vals =
      [("md5", ["deadbeef"]), ("sha1", []), ("sha256", []), ("ip", [])] := by decide

theorem processSheets_abort : ∀ (acc : EmailAcc) (l₁ l₂ : List (Option Table)),
    processSheets acc (l₁ ++ none :: l₂) = processSheets acc l₁
  | _, [], _ => rfl
  | _, none :: _, _ => rfl
  | acc, some t :: l₁, l₂ => by
    simp only [List.cons_append, processSheets]
    exact processSheets_abort (processSheet acc t) l₁ l₂

/-- Claim C7 (amended): when a sheet of an attachment fails to decode, that sheet
and all the remaining sheets of the same attachment are skipped (the
failure is caught by the per-attachment handler); values already collected
from the attachment's earlier sheets are kept, and the message's remaining
attachments are still processed. -/
theorem sheet_failure_aborts_attachment :
    (∀ (acc : EmailAcc) (l₁ l₂ : List (Option Table)),
       processSheets acc (l₁ ++ none :: l₂) = processSheets acc l₁) ∧
    (∀ (acc : EmailAcc) (fname : String) (l₁ l₂ : List (Option Table))
       (rest : List Attachment), isSpreadsheetName fname = true →
       processAtts acc (⟨fname, some (l₁ ++ none :: l₂)⟩ :: rest) =
         processAtts (processSheets acc l₁) rest) := by
  constructor
  · exact processSheets_abort
  · intro acc fname l₁ l₂ rest hfn
    simp only [processAtts, processAttachment, hfn, Bool.not_true, Bool.false_eq_true,
      if_false]
    rw [processSheets_abort acc l₁ l₂]

/-- Claim C7 witness for the amended claim: processing continues with the next
attachment after a sheet-decode failure, keeping earlier sheets' values. -/
theorem sheet_failure_aborts_attachment_witness :
    isSpreadsheetName "two_sheets.xlsx" = true ∧
    processAtts emptyAcc [⟨"two_sheets.xlsx", some [some tGood, none, some tGood]⟩, aGood] =
      processAtts (processSheets emptyAcc [some tGood]) [aGood] :=
  ⟨by decide,
   sheet_failure_aborts_attachment.2 emptyAcc "two_sheets.xlsx" [some tGood]
     [some tGood] [aGood] (by decide)⟩

theorem extendVals_keys (c : String) (vs : List String) :
    ∀ l : List (String × List String),
      (extendVals l c vs).map Prod.fst = l.map Prod.fst
  | [] => rfl
  | p :: l => by
    have ih := extendVals_keys c vs l
    simp only [extendVals, List.map_cons] at ih ⊢
    rw [ih]
    congr 1
    split <;> rfl

theorem extendVals_flatten_ne (c : String) (vs : List String) (hvs : vs ≠ []) :
    ∀ l : List (String × List String), c ∈ l.map Prod.fst →
      ((extendVals l c vs).map Prod.snd).flatten ≠ []
  | [], h => absurd h (List.not_mem_nil c)
  | p :: l, h => by
    simp only [extendVals, List.map_cons, List.flatten_cons]
    by_cases hc : p.1 = c
    · rw [if_pos hc]
      intro hemp
      rcases List.append_eq_nil.mp hemp with ⟨h1, _⟩
      rcases List.append_eq_nil.mp h1 with ⟨_, h2⟩
      exact hvs h2
    · rw [if_neg hc]
      intro hemp
      rcases List.append_eq_nil.mp hemp with ⟨_, h2⟩
      have hmem : c ∈ l.map Prod.fst := by
        rw [List.map_cons] at h
        rcases List.mem_cons.mp h with h1 | h1
        · exact absurd h1.symm hc
        · exact h1
      have ih := extendVals_flatten_ne c vs hvs l hmem
      simp only [extendVals] at ih
      exact ih h2

theorem processCats_inv (cols : List String) (rows : List (List Cell)) :
    ∀ (cats : List (String × List String)) (acc : EmailAcc),
      (∀ p ∈ cats, p.1 ∈ (["md5", "sha1", "sha256", "ip"] : List String)) →
      accInv acc → accInv (processCats acc cols rows cats)
  | [], _, _, hinv => hinv
  | (ioc, kws) :: cats, acc, hmem, hinv => by
    have hioc : ioc ∈ (["md5", "sha1", "sha256", "ip"] : List String) :=
      hmem (ioc, kws) (List.mem_cons_self _ _)
    have htail : ∀ p ∈ cats, p.1 ∈ (["md5", "sha1", "sha256", "ip"] : List String) :=
      fun p hp => hmem p (List.mem_cons_of_mem _ hp)
    simp only [processCats]
    split
    · exact processCats_inv cols rows cats acc htail hinv
    · rename_i c _
      split
      · exact processCats_inv cols rows cats acc htail hinv
      · rename_i hv
        refine processCats_inv cols rows cats _ htail ⟨?_, ?_⟩
        · show (extendVals acc.vals ioc (colVals rows (cols.indexOf c))).map Prod.fst = _
          rw [extendVals_keys]
          exact hinv.1
        · constructor
          · intro _
            have hin : ioc ∈ acc.vals.map Prod.fst := by rw [hinv.1]; exact hioc
            have hvs : colVals rows (cols.indexOf c) ≠ [] := by simpa using hv
            exact extendVals_flatten_ne ioc _ hvs acc.vals hin
          · intro _
            rfl

theorem processSheet_inv (acc : EmailAcc) (t : Table) (hinv : accInv acc) :
    accInv (processSheet acc t) := by
  unfold processSheet
  split
  · exact hinv
  · split
    · exact hinv
    · exact processCats_inv _ _ IOC_SEARCH_TERMS acc (by decide) hinv

theorem processSheets_inv : ∀ (sheets : List (Option Table)) (acc : EmailAcc),
    accInv acc → accInv (processSheets acc sheets)
  | [], _, hinv => hinv
  | none :: _, _, hinv => hinv
  | some t :: rest, acc, hinv =>
    processSheets_inv rest _ (processSheet_inv acc t hinv)

theorem processAttachment_inv (acc : EmailAcc) (a : Attachment) (hinv : accInv acc) :
    accInv (processAttachment acc a) := by
  unfold processAttachment
  split
  · exact hinv
  · split
    · exact hinv
    · exact processSheets_inv _ acc hinv

theorem processAtts_inv : ∀ (atts : List Attachment) (acc : EmailAcc),
    accInv acc → accInv (processAtts acc atts)
  | [], _, hinv => hinv
  | a :: rest, acc, hinv => processAtts_inv rest _ (processAttachment_inv acc a hinv)

theorem emptyAcc_inv : accInv emptyAcc := ⟨rfl, by decide⟩

/-- Claim C9: a message yields a record exactly when at least one value was
collected in at least one category bucket across all of its attachments and
sheets; a message that collected nothing yields no record, silently. -/
theorem record_emitted_iff_collected (m : Msg) (day : Nat) :
    (buildRecord m day).isSome = true ↔
      collectedVals (processAtts emptyAcc m.attachments) ≠ [] := by
  have hinv := processAtts_inv m.attachments emptyAcc emptyAcc_inv
  unfold buildRecord
  by_cases h : (processAtts emptyAcc m.attachments).hasData = true
  · rw [if_pos h]
    simp only [Option.isSome_some]
    exact ⟨fun _ => hinv.2.mp h, fun _ => trivial⟩
  · rw [if_neg h]
    simp only [Option.isSome_none]
    exact ⟨fun hf => absurd hf (by decide), fun hne => absurd (hinv.2.mpr hne) h⟩

theorem scanLoop_empty_of_lt (s e : Nat) (hlt : e < s) :
    ∀ msgs : List Msg, scanLoop s e msgs = []
  | [] => rfl
  | m :: rest => by
    have ih := scanLoop_empty_of_lt s e hlt rest
    simp only [scanLoop]
    split
    · exact ih
    · cases ht : m.receivedTime with
      | none => exact ih
      | some t =>
        by_cases h : t < s
        · simp [h]
        · have hgt : t > e := by omega
          simp [h, hgt, ih]

/-- Claim C8 counterexample: a malformed first entry is re-prompted, the accepted
start date 2024-05-10 is after the accepted end date 2024-05-01, yet the run
does not abort: it proceeds to the message scan (which finds nothing in the
inverted window) and completes normally with the ordinary no-data notice,
leaving the master file untouched.  No start-after-end validation exists in
the source. -/
theorem date_order_not_validated :
    dateToDays ⟨2024, 5, 1⟩ < dateToDays ⟨2024, 5, 10⟩ ∧
    runFromInputs ["2024-13-99", "2024-05-10", "2024-05-01"] [wMsg] ⟨none⟩ =
      some (⟨none⟩, [], Notice.noData) := by decide

/-- Claim C8 (amended): each date prompt accepts only strings that parse as
`%Y-%m-%d` dates, recovering from every malformed entry by re-prompting (not
fatal); but the source never compares the two dates — when the entered start
date is after the entered end date the run does not abort: every message is
outside the inverted window, so the scan collects nothing and the run
completes normally with the no-data notice and the master file untouched. -/
theorem date_input_spec :
    (∀ (bad : List String) (good : String) (rest : List String) (d : Date),
       (∀ b ∈ bad, strptimeYMD ⟨trimChars b.data⟩ = none) →
       strptimeYMD ⟨trimChars good.data⟩ = some d →
       get_valid_date (bad ++ good :: rest) = some (d, rest)) ∧
    (∀ (sd ed : Date) (msgs : List Msg) (fs : FsState),
       dateToDays ed < dateToDays sd →
       runAfterDates sd ed msgs fs = (fs, [], Notice.noData)) := by
  constructor
  · intro bad good rest d hbad hgood
    induction bad with
    | nil => simp [get_valid_date, hgood]
    | cons b bad ih =>
      simp only [List.cons_append, get_valid_date,
        hbad b (List.mem_cons_self b bad)]
      exact ih (fun x hx => hbad x (List.mem_cons_of_mem b hx))
  · intro sd ed msgs fs h
    unfold runAfterDates
    rw [scanLoop_empty_of_lt _ _ (by simp only [dayUS]; omega) msgs]
    rfl

/-- Claim C8 witness: one malformed entry, then a valid date. -/
theorem date_input_spec_witness :
    strptimeYMD "2024-13-99" = none ∧ strptimeYMD "2024-05-10" = some ⟨2024, 5, 10⟩ ∧
    get_valid_date ["2024-13-99", "2024-05-10"] = some (⟨2024, 5, 10⟩, []) :=
  ⟨by decide, by decide,
   date_input_spec.1 ["2024-13-99"] "2024-05-10" [] ⟨2024, 5, 10⟩
     (by decide) (by decide)⟩

/-- Claim C10: when the scan produces zero new records, the persistence step
performs no file-system operation at all — the master file's existence and
contents are left unchanged — and only the no-data notice is reported. -/
theorem no_new_records_master_untouched (s e : Nat) (msgs : List Msg) (fs : FsState)
    (h : scanLoop s e msgs = []) :
    persistStep (scanLoop s e msgs) fs = (fs, [], Notice.noData) := by
  rw [h]
  rfl

/-- Claim C10 witness: an empty folder with an existing master file. -/
theorem no_new_records_master_untouched_witness :
    scanLoop 0 0 [] = [] ∧
    persistStep (scanLoop 0 0 []) ⟨some [wRecord]⟩ =
      (⟨some [wRecord]⟩, [], Notice.noData) :=
  ⟨rfl, no_new_records_master_untouched 0 0 [] ⟨some [wRecord]⟩ rfl⟩

end CTI
